import Mathlib

/-
Verification of the WebSocket connection/room hub
(backend/app/core/websocket.py, class ConnectionManager).

The hub state is four Python dicts:
  active_connections : client_id -> WebSocket handle
  pet_rooms          : pet_id    -> set of client_ids
  user_pets          : client_id -> pet_id
  last_heartbeat     : client_id -> datetime

Dicts are modelled as association lists with insertion-order update
semantics (updating an existing key keeps its position, a new key is
appended; deletion erases the key).  Sets of client ids are modelled as
lists with membership-guarded insertion.  Timestamps are integers.

A WebSocket handle is modelled by an identity and a flag saying whether
send_json raises on it; the hub's effects (delivered messages, one
ledger entry per broadcast_to_pet invocation, closed handles) are
returned alongside the new state.  The source never closes a handle,
so no operation ever records a closed-handle effect.

The methods send_personal_message / disconnect / leave_pet_room /
broadcast_to_pet are mutually recursive in the source (a failed send
disconnects the peer, which leaves its room, which broadcasts a notice,
which sends again); the embedding makes that recursion structural with
an explicit fuel argument.  Fuel 0 returns the state unchanged; every
theorem below is either fuel-independent or stated for positive fuel.

The source's loop in broadcast_to_pet iterates the LIVE set
self.pet_rooms[pet_id]; following CPython set-iterator semantics, each
iteration step first compares the set's current size with its size at
loop entry and raises RuntimeError on a mismatch.  A nested disconnect
cascade that removes a member of the room being iterated therefore makes
the loop raise at its next step.  The embedding records this uncaught
exception in the err flag of Effects: a raising call returns the state
as mutated up to the raise point with err set, and each caller either
propagates the flag, skipping the statements the source would skip (the
dict deletions at the ends of disconnect and leave_pet_room, the
confirmation send of connect, the remaining cleanup disconnects of
broadcast), or catches it (the per-sweep try/except of the heartbeat
checker).
-/

/-- Association-list lookup, modelling Python dict indexing. -/
def dlookup {α : Type} (k : String) : List (String × α) → Option α
  | [] => none
  | kv :: rest => if k = kv.1 then some kv.2 else dlookup k rest

/-- Association-list update, modelling Python dict assignment: an existing
key keeps its position, a fresh key is appended at the end. -/
def dset {α : Type} (k : String) (v : α) : List (String × α) → List (String × α)
  | [] => [(k, v)]
  | kv :: rest => if k = kv.1 then (k, v) :: rest else kv :: dset k v rest

/-- Association-list deletion, modelling Python dict del on a present key
(and a no-op on an absent one). -/
def derase {α : Type} (k : String) : List (String × α) → List (String × α)
  | [] => []
  | kv :: rest => if k = kv.1 then derase k rest else kv :: derase k rest

/-- Set insertion, modelling Python set.add. -/
def sadd (c : String) (l : List String) : List String :=
  if c ∈ l then l else l ++ [c]

/-- Set removal, modelling Python set.remove after a membership check. -/
def sremove (c : String) (l : List String) : List String :=
  l.filter (fun d => !(d == c))

/-- Message types of the hub, from the MessageType enum in the source. -/
inductive MessageType where
  | connect
  | disconnect
  | heartbeat
  | pet_metrics_update
  | pet_state_change
  | pet_feed
  | pet_play
  | task_created
  | task_completed
  | task_assigned
  | user_joined
  | user_left
  | user_online
  | currency_update
  | transaction
  | notification
  | alert
  | message
deriving DecidableEq

/-- A message envelope: the JSON dicts the source constructs, flattened to
the fields the hub itself ever writes. -/
structure Message where
  mtype : MessageType
  user_id : Option String := none
  pet_id : Option String := none
  client_id : Option String := none
  status : Option String := none
  text : Option String := none
  timestamp : Option Int := none
deriving DecidableEq

/-- A WebSocket handle: an identity plus whether send_json raises on it. -/
structure WS where
  id : Nat
  fails : Bool
deriving DecidableEq

/-- Hub state: the four dictionaries of ConnectionManager. -/
structure Hub where
  active_connections : List (String × WS)
  pet_rooms : List (String × List String)
  user_pets : List (String × String)
  last_heartbeat : List (String × Int)
deriving DecidableEq

/-- The empty hub, as built by ConnectionManager.init. -/
def Hub.init : Hub := ⟨[], [], [], []⟩

/-- Membership set of a room, empty when the room is absent. -/
def roomMembers (s : Hub) (p : String) : List String :=
  (dlookup p s.pet_rooms).getD []

/-- Observable side effects of a hub operation: messages delivered to
clients, one ledger entry per broadcast_to_pet invocation, the ids of
handles that were closed, and whether the operation terminated by an
uncaught exception (err true means the paired state holds the mutations
performed before the raise). -/
structure Effects where
  sent : List (String × Message)
  broadcasts : List Message
  closed : List Nat
  err : Bool
deriving DecidableEq

def Effects.empty : Effects := ⟨[], [], [], false⟩

def Effects.app (a b : Effects) : Effects :=
  ⟨a.sent ++ b.sent, a.broadcasts ++ b.broadcasts, a.closed ++ b.closed, a.err || b.err⟩

/-- The user_joined notice built in join_pet_room. -/
def userJoinedMsg (c p : String) (now : Int) : Message :=
  { mtype := MessageType.user_joined, user_id := some c, pet_id := some p,
    timestamp := some now }

/-- The user_left notice built in leave_pet_room. -/
def userLeftMsg (c p : String) (now : Int) : Message :=
  { mtype := MessageType.user_left, user_id := some c, pet_id := some p,
    timestamp := some now }

/-- The connection-confirmation message built in connect. -/
def connectMsg (c : String) (now : Int) : Message :=
  { mtype := MessageType.connect, text := some "Connected successfully",
    client_id := some c, timestamp := some now }

/-- The heartbeat acknowledgment built in handle_heartbeat. -/
def heartbeatAckMsg : Message :=
  { mtype := MessageType.heartbeat, status := some "alive" }

mutual

/-- ConnectionManager.send_personal_message: if the client is registered,
try to send; a raising handle is caught by the local try/except, which
then calls disconnect of that client — an exception raised by that
disconnect (inside the except block) propagates out. -/
def send_personal_message : Nat → Int → String → Message → Hub → Hub × Effects
  | 0, _, _, _, s => (s, Effects.empty)
  | fuel+1, now, client, msg, s =>
    match dlookup client s.active_connections with
    | none => (s, Effects.empty)
    | some ws =>
      if ws.fails then disconnect fuel now client s
      else (s, ⟨[(client, msg)], [], [], false⟩)

/-- ConnectionManager.disconnect: if registered, leave the room named by
user_pets (if any), then delete the registry and heartbeat entries.
There is no try/except here: an exception raised by leave_pet_room
aborts disconnect before the deletions run, leaving the client
registered.  The source closes no handle here. -/
def disconnect : Nat → Int → String → Hub → Hub × Effects
  | 0, _, _, s => (s, Effects.empty)
  | fuel+1, now, client, s =>
    match dlookup client s.active_connections with
    | some _ =>
      let r :=
        match dlookup client s.user_pets with
        | some pet => leave_pet_room fuel now client pet s
        | none => (s, Effects.empty)
      if r.2.err then r
      else
        ({ r.1 with
            active_connections := derase client r.1.active_connections,
            last_heartbeat := derase client r.1.last_heartbeat }, r.2)
    | none => (s, Effects.empty)

/-- ConnectionManager.leave_pet_room: if the client is a member of the
room, remove it, delete the room when it became empty, and broadcast a
user_left notice to the room (the leaver is already removed, and there
is no exclude list).  An exception raised by that broadcast aborts the
method before the final block, so the reverse-index deletion is skipped;
otherwise the reverse-index entry is deleted in every case. -/
def leave_pet_room : Nat → Int → String → String → Hub → Hub × Effects
  | 0, _, _, _, s => (s, Effects.empty)
  | fuel+1, now, client, pet, s =>
    let r :=
      match dlookup pet s.pet_rooms with
      | some members =>
        if client ∈ members then
          let rooms2 :=
            if sremove client members = [] then derase pet s.pet_rooms
            else dset pet (sremove client members) s.pet_rooms
          broadcast_to_pet fuel now pet (userLeftMsg client pet now) []
            { s with pet_rooms := rooms2 }
        else (s, Effects.empty)
      | none => (s, Effects.empty)
    if r.2.err then r
    else ({ r.1 with user_pets := derase client r.1.user_pets }, r.2)

/-- ConnectionManager.broadcast_to_pet: send the message to every member
of the room not in the exclude list, iterating the live membership set;
the member loop raises (err) when that set changes size under it.  The
ledger records the invocation; an exception from the loop propagates to
the caller. -/
def broadcast_to_pet : Nat → Int → String → Message → List String → Hub → Hub × Effects
  | 0, _, _, _, _, s => (s, Effects.empty)
  | fuel+1, now, pet, msg, excl, s =>
    match dlookup pet s.pet_rooms with
    | some members =>
      let r := send_to_members fuel now pet members.length members excl msg s
      (r.1, ⟨r.2.sent, msg :: r.2.broadcasts, r.2.closed, r.2.err⟩)
    | none => (s, ⟨[], [msg], [], false⟩)

/-- The member loop inside broadcast_to_pet over the live set
self.pet_rooms[pet]: the arguments carry the visit order captured at
loop entry and the set's size n0 at loop entry.  As in CPython, every
iteration step (including the final one) first compares the set's
current size against n0 and raises RuntimeError (err) on a mismatch;
a raise from a nested cascade propagates immediately and aborts the
loop. -/
def send_to_members : Nat → Int → String → Nat → List String → List String → Message → Hub → Hub × Effects
  | 0, _, _, _, _, _, _, s => (s, Effects.empty)
  | fuel+1, now, pet, n0, mems, excl, msg, s =>
    if (roomMembers s pet).length = n0 then
      match mems with
      | [] => (s, Effects.empty)
      | c :: rest =>
        let r1 := if c ∈ excl then (s, Effects.empty)
                  else send_personal_message fuel now c msg s
        if r1.2.err then r1
        else
          let r2 := send_to_members fuel now pet n0 rest excl msg r1.1
          (r2.1, Effects.app r1.2 r2.2)
    else (s, ⟨[], [], [], true⟩)

end

/-- ConnectionManager.join_pet_room: create the room if absent, add the
client, point the reverse index at the new room, and broadcast a
user_joined notice to the room excluding the joiner.  The source does
not remove the client from any previous room. -/
def join_pet_room (fuel : Nat) (now : Int) (client pet : String) (s : Hub) : Hub × Effects :=
  let s1 : Hub :=
    { s with
        pet_rooms := dset pet (sadd client (roomMembers s pet)) s.pet_rooms,
        user_pets := dset client pet s.user_pets }
  broadcast_to_pet fuel now pet (userJoinedMsg client pet now) [client] s1

/-- ConnectionManager.connect: install the handle, reset the heartbeat,
optionally join a room, and send the connection confirmation.  An
exception raised by the join propagates and skips the confirmation send.
The source does not close a pre-existing handle for the same client. -/
def connect (fuel : Nat) (now : Int) (ws : WS) (client : String) (pet : Option String) (s : Hub) : Hub × Effects :=
  let s1 : Hub :=
    { s with
        active_connections := dset client ws s.active_connections,
        last_heartbeat := dset client now s.last_heartbeat }
  let r2 :=
    match pet with
    | some p => join_pet_room fuel now client p s1
    | none => (s1, Effects.empty)
  if r2.2.err then r2
  else
    let r3 := send_personal_message fuel now client (connectMsg client now) r2.1
    (r3.1, Effects.app r2.2 r3.2)

/-- ConnectionManager.handle_heartbeat: refresh the timestamp of a
registered client and acknowledge. -/
def handle_heartbeat (fuel : Nat) (now : Int) (client : String) (s : Hub) : Hub × Effects :=
  match dlookup client s.active_connections with
  | some _ =>
    send_personal_message fuel now client heartbeatAckMsg
      { s with last_heartbeat := dset client now s.last_heartbeat }
  | none => (s, Effects.empty)

/-- The delivery loop of ConnectionManager.broadcast: one pass over the
registry items; per recipient, an excluded client is skipped, a raising
handle is recorded for later disconnection, otherwise the message is
delivered.  Failures are caught per recipient and never escape. -/
def bcastLoop (msg : Message) (excl : List String) : List (String × WS) → List (String × Message) × List String
  | [] => ([], [])
  | cw :: rest =>
    let t := bcastLoop msg excl rest
    if cw.1 ∈ excl then t
    else if cw.2.fails then (t.1, cw.1 :: t.2)
    else ((cw.1, msg) :: t.1, t.2)

/-- Sequential disconnect of a list of clients, as done after the loops of
broadcast and of the heartbeat sweep.  The list itself is a plain Python
list, so iterating it is safe, but an exception raised by one disconnect
aborts the remaining ones and propagates. -/
def runDisconnects (fuel : Nat) (now : Int) : List String → Hub × Effects → Hub × Effects
  | [], acc => acc
  | c :: rest, acc =>
    let r := disconnect fuel now c acc.1
    if r.2.err then (r.1, Effects.app acc.2 r.2)
    else runDisconnects fuel now rest (r.1, Effects.app acc.2 r.2)

/-- ConnectionManager.broadcast: deliver to all registered clients except
the excluded ones, then disconnect the clients whose send raised. -/
def broadcast (fuel : Nat) (now : Int) (msg : Message) (excl : List String) (s : Hub) : Hub × Effects :=
  let lp := bcastLoop msg excl s.active_connections
  runDisconnects fuel now lp.2 (s, ⟨lp.1, [], [], false⟩)

/-- The stale set computed by one iteration of the heartbeat checker:
clients whose last heartbeat is more than 60 time units old. -/
def staleClients (now : Int) (s : Hub) : List String :=
  s.last_heartbeat.filterMap (fun ct => if (60 : Int) < now - ct.2 then some ct.1 else none)

/-- One sweep of ConnectionManager.heartbeat_checker: collect the stale
clients over the heartbeat dict, then disconnect each of them.  The
whole sweep body sits inside the checker's try/except, so an exception
raised by one disconnect aborts the remaining evictions of this sweep
but is caught (err comes out false) and the checker continues. -/
def heartbeat_sweep (fuel : Nat) (now : Int) (s : Hub) : Hub × Effects :=
  let r := runDisconnects fuel now (staleClients now s) (s, Effects.empty)
  (r.1, ⟨r.2.sent, r.2.broadcasts, r.2.closed, false⟩)

/-- The fixed sleep interval of the heartbeat checker loop. -/
def heartbeatInterval : Int := 30

/-- The time of the k-th sweep: the checker sleeps for the interval before
each sweep, forever. -/
def sweepTime (k : Nat) : Int := heartbeatInterval * (k + 1)

/-- The public operations of the hub, for reachable-state reasoning. -/
inductive HubOp where
  | opConnect (now : Int) (ws : WS) (client : String) (pet : Option String)
  | opDisconnect (now : Int) (client : String)
  | opJoin (now : Int) (client : String) (pet : String)
  | opLeave (now : Int) (client : String) (pet : String)
  | opHeartbeat (now : Int) (client : String)
  | opBroadcast (now : Int) (msg : Message) (excl : List String)
  | opBroadcastRoom (now : Int) (pet : String) (msg : Message) (excl : List String)
  | opSweep (now : Int)

/-- Fuel used when running operation sequences; all invariants proved
below hold for every fuel value. -/
def opFuel : Nat := 40

/-- State transition of one hub operation. -/
def applyOp (s : Hub) : HubOp → Hub
  | HubOp.opConnect now ws c p => (connect opFuel now ws c p s).1
  | HubOp.opDisconnect now c => (disconnect opFuel now c s).1
  | HubOp.opJoin now c p => (join_pet_room opFuel now c p s).1
  | HubOp.opLeave now c p => (leave_pet_room opFuel now c p s).1
  | HubOp.opHeartbeat now c => (handle_heartbeat opFuel now c s).1
  | HubOp.opBroadcast now m e => (broadcast opFuel now m e s).1
  | HubOp.opBroadcastRoom now p m e => (broadcast_to_pet opFuel now p m e s).1
  | HubOp.opSweep now => (heartbeat_sweep opFuel now s).1

/-- Running a sequence of hub operations from a state. -/
def runOps (ops : List HubOp) (s : Hub) : Hub := ops.foldl applyOp s

/-- Keys of an association list. -/
def dkeys {α : Type} (l : List (String × α)) : List String := l.map Prod.fst

/-- Recognizer for a user_left notice about a given client. -/
def isULC (c : String) (m : Message) : Bool :=
  decide (m.mtype = MessageType.user_left ∧ m.user_id = some c)

/-- Every room entry of the state has a non-empty membership set. -/
def roomsNonempty (s : Hub) : Prop :=
  ∀ p ms, dlookup p s.pet_rooms = some ms → ms ≠ []

/-- Every registered handle delivers (no send over it raises). -/
def goodHandles (s : Hub) : Prop :=
  ∀ pm ∈ s.active_connections, pm.2.fails = false

/-- A concrete hub state used by counterexamples and witnesses: three
registered, well-behaved clients, c1 and c2 in room A, c3 in room B. -/
def demoHub : Hub :=
  ⟨[("c1", ⟨1, false⟩), ("c2", ⟨2, false⟩), ("c3", ⟨3, false⟩)],
   [("A", ["c1", "c2"]), ("B", ["c3"])],
   [("c1", "A"), ("c2", "A"), ("c3", "B")],
   [("c1", 0), ("c2", 0), ("c3", 0)]⟩

/-- A concrete hub state with two raising handles sharing room A, plus a
well-behaved roomless client c1. -/
def demoTwoBad : Hub :=
  ⟨[("c1", ⟨1, false⟩), ("d1", ⟨4, true⟩), ("d2", ⟨5, true⟩)],
   [("A", ["d1", "d2"])],
   [("d1", "A"), ("d2", "A")],
   [("c1", 0), ("d1", 0), ("d2", 0)]⟩

/-- An arbitrary application payload used by broadcast witnesses. -/
def demoMsg : Message := { mtype := MessageType.message, text := some "hi" }

/-- A concrete hub state at sweep time 100: c1 is stale (heartbeat 10)
and shares room A with the fresh client d (heartbeat 95) whose handle
raises on send. -/
def demoSweepBad : Hub :=
  ⟨[("c1", ⟨1, false⟩), ("d", ⟨2, true⟩)],
   [("A", ["c1", "d"])],
   [("c1", "A"), ("d", "A")],
   [("c1", 10), ("d", 95)]⟩

/-! Basic lemmas about the dictionary and set models. -/

theorem dlookup_dset {α : Type} (k k2 : String) (v : α) (l : List (String × α)) :
    dlookup k (dset k2 v l) = if k = k2 then some v else dlookup k l := by
  induction l with
  | nil => by_cases h : k = k2 <;> simp [dset, dlookup, h]
  | cons kv rest ih =>
    cases kv with
    | mk k3 v3 =>
      by_cases h2 : k2 = k3
      · subst h2
        by_cases h : k = k2
        · subst h
          simp [dset, dlookup]
        · simp [dset, dlookup, h]
      · by_cases h : k = k3
        · subst h
          have hk2 : ¬(k = k2) := fun hh => h2 hh.symm
          simp [dset, dlookup, h2, hk2]
        · have h2s : ¬(k2 = k3) := h2
          simp [dset, dlookup, h2s, h, ih]

theorem dlookup_derase {α : Type} (k k2 : String) (l : List (String × α)) :
    dlookup k (derase k2 l) = if k = k2 then none else dlookup k l := by
  induction l with
  | nil => by_cases h : k = k2 <;> simp [derase, dlookup, h]
  | cons kv rest ih =>
    cases kv with
    | mk k3 v3 =>
      by_cases h2 : k2 = k3
      · subst h2
        by_cases h : k = k2
        · subst h
          simp [derase, dlookup, ih]
        · simp [derase, dlookup, h, ih]
      · by_cases h : k = k3
        · subst h
          have hk2 : ¬(k = k2) := fun hh => h2 hh.symm
          simp [derase, dlookup, h2, hk2]
        · simp [derase, dlookup, h2, h, ih]

theorem mem_of_dlookup {α : Type} {k : String} {v : α} {l : List (String × α)}
    (h : dlookup k l = some v) : (k, v) ∈ l := by
  induction l with
  | nil => simp [dlookup] at h
  | cons kv rest ih =>
    cases kv with
    | mk k3 v3 =>
      by_cases h2 : k = k3
      · simp [dlookup, h2] at h
        subst h2
        subst h
        exact List.mem_cons_self _ _
      · simp [dlookup, h2] at h
        exact List.mem_cons_of_mem _ (ih h)

theorem dlookup_of_mem_nodup {α : Type} {k : String} {v : α} {l : List (String × α)}
    (hnd : (dkeys l).Nodup) (h : (k, v) ∈ l) : dlookup k l = some v := by
  induction l with
  | nil => simp at h
  | cons kv rest ih =>
    rw [dkeys, List.map_cons, List.nodup_cons] at hnd
    rcases List.mem_cons.mp h with h1 | h1
    · rw [← h1]
      simp [dlookup]
    · have hk : ¬(k = kv.1) := by
        intro hk
        exact hnd.1 (hk ▸ List.mem_map_of_mem Prod.fst h1)
      simp [dlookup, hk]
      exact ih hnd.2 h1

theorem mem_derase {α : Type} {pm : String × α} {k : String} {l : List (String × α)} :
    pm ∈ derase k l ↔ pm ∈ l ∧ ¬(k = pm.1) := by
  induction l with
  | nil => simp [derase]
  | cons kv rest ih =>
    by_cases h2 : k = kv.1
    · rw [derase, if_pos h2, ih]
      constructor
      · rintro ⟨h1, hne⟩
        exact ⟨List.mem_cons_of_mem _ h1, hne⟩
      · rintro ⟨h1, hne⟩
        rcases List.mem_cons.mp h1 with h3 | h3
        · exact absurd (h3 ▸ h2) hne
        · exact ⟨h3, hne⟩
    · rw [derase, if_neg h2]
      constructor
      · intro h1
        rcases List.mem_cons.mp h1 with h3 | h3
        · exact ⟨List.mem_cons.mpr (Or.inl h3), fun hh => h2 (h3 ▸ hh)⟩
        · exact ⟨List.mem_cons_of_mem _ (ih.mp h3).1, (ih.mp h3).2⟩
      · rintro ⟨h1, hne⟩
        rcases List.mem_cons.mp h1 with h3 | h3
        · exact List.mem_cons.mpr (Or.inl h3)
        · exact List.mem_cons_of_mem _ (ih.mpr ⟨h3, hne⟩)

theorem mem_dset_nodup {α : Type} {pm : String × α} {k : String} {v : α} {l : List (String × α)}
    (hnd : (dkeys l).Nodup) (h : pm ∈ dset k v l) :
    pm = (k, v) ∨ (pm ∈ l ∧ ¬(pm.1 = k)) := by
  induction l with
  | nil =>
    simp [dset] at h
    exact Or.inl h
  | cons kv rest ih =>
    rw [dkeys, List.map_cons, List.nodup_cons] at hnd
    by_cases h2 : k = kv.1
    · rw [dset, if_pos h2] at h
      rcases List.mem_cons.mp h with h1 | h1
      · exact Or.inl h1
      · right
        refine ⟨List.mem_cons_of_mem _ h1, ?_⟩
        intro hk
        exact hnd.1 ((h2 ▸ hk) ▸ List.mem_map_of_mem Prod.fst h1)
    · rw [dset, if_neg h2] at h
      rcases List.mem_cons.mp h with h1 | h1
      · right
        refine ⟨List.mem_cons.mpr (Or.inl h1), ?_⟩
        intro hk
        exact h2 (by rw [← hk, h1])
      · rcases ih hnd.2 h1 with h3 | h3
        · exact Or.inl h3
        · exact Or.inr ⟨List.mem_cons_of_mem _ h3.1, h3.2⟩

theorem mem_sremove {d c : String} {l : List String} :
    d ∈ sremove c l ↔ d ∈ l ∧ ¬(d = c) := by
  simp [sremove, List.mem_filter]

theorem mem_sadd {d c : String} {l : List String} :
    d ∈ sadd c l ↔ d ∈ l ∨ d = c := by
  unfold sadd
  by_cases h : c ∈ l
  · simp [h]
    intro hd
    rw [hd]
    exact h
  · simp [h]

theorem sadd_ne_nil (c : String) (l : List String) : sadd c l ≠ [] := by
  unfold sadd
  by_cases h : c ∈ l
  · simp [h]
    intro hnil
    rw [hnil] at h
    simp at h
  · simp [h]

theorem mem_dset {α : Type} {pm : String × α} {k : String} {v : α} {l : List (String × α)}
    (h : pm ∈ dset k v l) : pm = (k, v) ∨ pm ∈ l := by
  induction l with
  | nil =>
    simp [dset] at h
    exact Or.inl h
  | cons kv rest ih =>
    by_cases h2 : k = kv.1
    · rw [dset, if_pos h2] at h
      rcases List.mem_cons.mp h with h1 | h1
      · exact Or.inl h1
      · exact Or.inr (List.mem_cons_of_mem _ h1)
    · rw [dset, if_neg h2] at h
      rcases List.mem_cons.mp h with h1 | h1
      · exact Or.inr (List.mem_cons.mpr (Or.inl h1))
      · rcases ih h1 with h3 | h3
        · exact Or.inl h3
        · exact Or.inr (List.mem_cons_of_mem _ h3)

/-! Joint fuel-induction lemmas about the mutually recursive hub methods. -/

theorem closed_nil :
    ∀ fuel : Nat,
      (∀ now c m s, (send_personal_message fuel now c m s).2.closed = []) ∧
      (∀ now c s, (disconnect fuel now c s).2.closed = []) ∧
      (∀ now c p s, (leave_pet_room fuel now c p s).2.closed = []) ∧
      (∀ now p m excl s, (broadcast_to_pet fuel now p m excl s).2.closed = []) ∧
      (∀ now pet n0 mems excl m s, (send_to_members fuel now pet n0 mems excl m s).2.closed = []) := by
  intro fuel
  induction fuel with
  | zero =>
    refine ⟨?_, ?_, ?_, ?_, ?_⟩ <;> intros <;>
      simp [send_personal_message, disconnect, leave_pet_room, broadcast_to_pet,
            send_to_members, Effects.empty]
  | succ fuel ih =>
    obtain ⟨ihspm, ihdc, ihlv, ihbtp, ihstm⟩ := ih
    refine ⟨?_, ?_, ?_, ?_, ?_⟩
    · intro now c m s
      simp only [send_personal_message]
      cases h : dlookup c s.active_connections with
      | none => simp [Effects.empty]
      | some ws =>
        cases hf : ws.fails with
        | true => simp [hf, ihdc]
        | false => simp [hf, Effects.empty]
    · intro now c s
      simp only [disconnect]
      cases h : dlookup c s.active_connections with
      | none => simp [Effects.empty]
      | some ws =>
        cases h2 : dlookup c s.user_pets with
        | some pet =>
          dsimp only
          split <;> simp [ihlv]
        | none =>
          simp [Effects.empty]
    · intro now c p s
      simp only [leave_pet_room]
      cases h : dlookup p s.pet_rooms with
      | none => simp [Effects.empty]
      | some members =>
        by_cases hm : c ∈ members
        · simp only [hm, if_true]
          split <;> split <;> simp [ihbtp]
        · simp [hm, Effects.empty]
    · intro now p m excl s
      simp only [broadcast_to_pet]
      cases h : dlookup p s.pet_rooms with
      | none => simp
      | some members => simp [ihstm]
    · intro now pet n0 mems excl m s
      simp only [send_to_members]
      by_cases hsz : (roomMembers s pet).length = n0
      · simp only [hsz, if_true]
        cases mems with
        | nil => simp [Effects.empty]
        | cons c rest =>
          dsimp only
          by_cases he : c ∈ excl
          · simp [he, Effects.app, Effects.empty, ihstm]
          · simp only [he, if_false]
            split <;> simp [Effects.app, ihspm, ihstm]
      · simp [hsz]

theorem roomsNonempty_kept :
    ∀ fuel : Nat,
      (∀ now c m s, roomsNonempty s → roomsNonempty (send_personal_message fuel now c m s).1) ∧
      (∀ now c s, roomsNonempty s → roomsNonempty (disconnect fuel now c s).1) ∧
      (∀ now c p s, roomsNonempty s → roomsNonempty (leave_pet_room fuel now c p s).1) ∧
      (∀ now p m excl s, roomsNonempty s → roomsNonempty (broadcast_to_pet fuel now p m excl s).1) ∧
      (∀ now pet n0 mems excl m s, roomsNonempty s →
        roomsNonempty (send_to_members fuel now pet n0 mems excl m s).1) := by
  intro fuel
  induction fuel with
  | zero =>
    refine ⟨?_, ?_, ?_, ?_, ?_⟩ <;> intros <;>
      simp_all [send_personal_message, disconnect, leave_pet_room, broadcast_to_pet,
                send_to_members]
  | succ fuel ih =>
    obtain ⟨ihspm, ihdc, ihlv, ihbtp, ihstm⟩ := ih
    refine ⟨?_, ?_, ?_, ?_, ?_⟩
    · intro now c m s hinv
      simp only [send_personal_message]
      cases h : dlookup c s.active_connections with
      | none => exact hinv
      | some ws =>
        cases hf : ws.fails with
        | true =>
          simp only [hf, if_true]
          exact ihdc now c s hinv
        | false =>
          simp only [hf]
          exact hinv
    · intro now c s hinv
      simp only [disconnect]
      cases h : dlookup c s.active_connections with
      | none => exact hinv
      | some ws =>
        cases h2 : dlookup c s.user_pets with
        | some pet =>
          dsimp only
          split
          · exact ihlv now c pet s hinv
          · intro q ms hq
            exact ihlv now c pet s hinv q ms hq
        | none =>
          exact fun q ms hq => hinv q ms hq
    · intro now c p s hinv
      simp only [leave_pet_room]
      cases h : dlookup p s.pet_rooms with
      | none =>
        exact fun q ms hq => hinv q ms hq
      | some members =>
        by_cases hm : c ∈ members
        · simp only [hm, if_true]
          by_cases hcase : sremove c members = []
          · rw [if_pos hcase]
            have hs2 : roomsNonempty { s with pet_rooms := derase p s.pet_rooms } := by
              intro q ms hq
              dsimp only at hq
              rw [dlookup_derase] at hq
              by_cases hqp : q = p
              · rw [if_pos hqp] at hq
                cases hq
              · rw [if_neg hqp] at hq
                exact hinv q ms hq
            split
            · exact ihbtp now p (userLeftMsg c p now) [] _ hs2
            · intro q ms hq
              exact ihbtp now p (userLeftMsg c p now) [] _ hs2 q ms hq
          · rw [if_neg hcase]
            have hs2 : roomsNonempty
                { s with pet_rooms := dset p (sremove c members) s.pet_rooms } := by
              intro q ms hq
              dsimp only at hq
              rw [dlookup_dset] at hq
              by_cases hqp : q = p
              · rw [if_pos hqp] at hq
                cases hq
                exact hcase
              · rw [if_neg hqp] at hq
                exact hinv q ms hq
            split
            · exact ihbtp now p (userLeftMsg c p now) [] _ hs2
            · intro q ms hq
              exact ihbtp now p (userLeftMsg c p now) [] _ hs2 q ms hq
        · simp only [hm, if_false]
          exact fun q ms hq => hinv q ms hq
    · intro now p m excl s hinv
      simp only [broadcast_to_pet]
      cases h : dlookup p s.pet_rooms with
      | none => exact hinv
      | some members =>
        intro q ms hq
        exact ihstm now p members.length members excl m s hinv q ms hq
    · intro now pet n0 mems excl m s hinv
      simp only [send_to_members]
      by_cases hsz : (roomMembers s pet).length = n0
      · simp only [hsz, if_true]
        cases mems with
        | nil => exact hinv
        | cons c rest =>
          by_cases he : c ∈ excl
          · simp only [he, if_true]
            exact fun q ms hq => ihstm now pet n0 rest excl m s hinv q ms hq
          · simp only [he, if_false]
            split
            · exact ihspm now c m s hinv
            · exact fun q ms hq =>
                ihstm now pet n0 rest excl m _ (ihspm now c m s hinv) q ms hq
      · simp only [hsz, if_false]
        exact hinv

theorem disconnect_not_active (fuel : Nat) (now : Int) (c : String) (s : Hub)
    (h : dlookup c s.active_connections = none) :
    disconnect (fuel+1) now c s = (s, Effects.empty) := by
  simp [disconnect, h]

theorem spm_delivers (fuel : Nat) (now : Int) (c : String) (m : Message) (s : Hub) (w : WS)
    (h : dlookup c s.active_connections = some w) (hw : w.fails = false) :
    send_personal_message (fuel+1) now c m s = (s, ⟨[(c, m)], [], [], false⟩) := by
  simp [send_personal_message, h, hw]

theorem spm_good (fuel : Nat) (now : Int) (c : String) (m : Message) (s : Hub)
    (hgood : goodHandles s) :
    (send_personal_message fuel now c m s).1 = s ∧
    (send_personal_message fuel now c m s).2.broadcasts = [] ∧
    (send_personal_message fuel now c m s).2.err = false := by
  cases fuel with
  | zero => exact ⟨rfl, rfl, rfl⟩
  | succ f =>
    simp only [send_personal_message]
    cases h : dlookup c s.active_connections with
    | none => exact ⟨rfl, rfl, rfl⟩
    | some ws =>
      have hw : ws.fails = false := hgood (c, ws) (mem_of_dlookup h)
      simp [hw]

theorem stm_good :
    ∀ (fuel : Nat) (now : Int) (pet : String) (n0 : Nat) (mems excl : List String)
      (m : Message) (s : Hub),
      goodHandles s → (roomMembers s pet).length = n0 →
      (send_to_members fuel now pet n0 mems excl m s).1 = s ∧
      (send_to_members fuel now pet n0 mems excl m s).2.broadcasts = [] ∧
      (send_to_members fuel now pet n0 mems excl m s).2.err = false := by
  intro fuel
  induction fuel with
  | zero =>
    intro now pet n0 mems excl m s _ _
    exact ⟨rfl, rfl, rfl⟩
  | succ f ih =>
    intro now pet n0 mems excl m s hgood hsize
    simp only [send_to_members]
    rw [if_pos hsize]
    cases mems with
    | nil => exact ⟨rfl, rfl, rfl⟩
    | cons c rest =>
      dsimp only
      by_cases he : c ∈ excl
      · rw [if_pos he]
        have hr2 := ih now pet n0 rest excl m s hgood hsize
        simp [Effects.empty, Effects.app, hr2.1, hr2.2.1, hr2.2.2]
      · rw [if_neg he]
        obtain ⟨hs1, hb1, he1⟩ := spm_good f now c m s hgood
        have hr2 := ih now pet n0 rest excl m s hgood hsize
        simp [he1, hs1, hb1, Effects.app, hr2.1, hr2.2.1, hr2.2.2]

theorem lv_good (fuel : Nat) (now : Int) (c p : String) (s : Hub) (hgood : goodHandles s) :
    (leave_pet_room fuel now c p s).1.active_connections = s.active_connections ∧
    ((leave_pet_room fuel now c p s).2.broadcasts.filter (isULC c)).length ≤ 1 ∧
    (leave_pet_room fuel now c p s).2.err = false := by
  cases fuel with
  | zero => exact ⟨rfl, by simp [leave_pet_room, Effects.empty], rfl⟩
  | succ f =>
    simp only [leave_pet_room]
    cases h : dlookup p s.pet_rooms with
    | none => exact ⟨rfl, by simp [Effects.empty], rfl⟩
    | some members =>
      by_cases hm : c ∈ members
      · simp only [hm, if_true]
        cases f with
        | zero =>
          simp [broadcast_to_pet, Effects.empty]
        | succ f2 =>
          simp only [broadcast_to_pet]
          by_cases hcase : sremove c members = []
          · rw [if_pos hcase]
            have hlook : dlookup p ({ s with pet_rooms := derase p s.pet_rooms } : Hub).pet_rooms
                = none := by
              dsimp only
              rw [dlookup_derase, if_pos rfl]
            rw [hlook]
            simp [isULC, userLeftMsg]
          · rw [if_neg hcase]
            have hlook : dlookup p
                ({ s with pet_rooms := dset p (sremove c members) s.pet_rooms } : Hub).pet_rooms
                = some (sremove c members) := by
              dsimp only
              rw [dlookup_dset, if_pos rfl]
            rw [hlook]
            have hgood2 : goodHandles
                { s with pet_rooms := dset p (sremove c members) s.pet_rooms } :=
              fun pm hpm => hgood pm hpm
            have hsz : (roomMembers
                { s with pet_rooms := dset p (sremove c members) s.pet_rooms } p).length
                = (sremove c members).length := by
              simp [roomMembers, dlookup_dset]
            obtain ⟨hs1, hb1, he1⟩ := stm_good f2 now p (sremove c members).length
              (sremove c members) [] (userLeftMsg c p now) _ hgood2 hsz
            simp only [he1, hs1, hb1]
            simp [isULC, userLeftMsg]
      · simp only [hm, if_false]
        exact ⟨rfl, by simp [Effects.empty], rfl⟩

theorem dc_good (fuel : Nat) (now : Int) (c : String) (s : Hub) (hgood : goodHandles s) :
    dlookup c (disconnect (fuel+1) now c s).1.active_connections = none ∧
    ((disconnect (fuel+1) now c s).2.broadcasts.filter (isULC c)).length ≤ 1 ∧
    (disconnect (fuel+1) now c s).2.err = false := by
  simp only [disconnect]
  cases h : dlookup c s.active_connections with
  | none => exact ⟨h, by simp [Effects.empty], rfl⟩
  | some ws =>
    cases h2 : dlookup c s.user_pets with
    | some pet =>
      obtain ⟨ha, hb, he⟩ := lv_good fuel now c pet s hgood
      dsimp only
      rw [he]
      simp [dlookup_derase, hb, he]
    | none =>
      dsimp only
      simp [Effects.empty, dlookup_derase]

theorem stm_exact :
    ∀ (mems : List String) (fuel : Nat) (now : Int) (pet : String) (n0 : Nat)
      (excl : List String) (m : Message) (s : Hub),
      mems.length < fuel →
      (roomMembers s pet).length = n0 →
      (∀ d ∈ mems, ¬(d ∈ excl) → ∃ w, dlookup d s.active_connections = some w ∧ w.fails = false) →
      send_to_members fuel now pet n0 mems excl m s
        = (s, ⟨(mems.filter (fun d => !(decide (d ∈ excl)))).map (fun d => (d, m)), [], [], false⟩) := by
  intro mems
  induction mems with
  | nil =>
    intro fuel now pet n0 excl m s hlen hsize hreg
    cases fuel with
    | zero => simp at hlen
    | succ f =>
      simp only [send_to_members]
      rw [if_pos hsize]
      simp [Effects.empty]
  | cons a rest ih =>
    intro fuel now pet n0 excl m s hlen hsize hreg
    cases fuel with
    | zero => simp at hlen
    | succ f =>
      have hlen2 : rest.length < f := by
        simp only [List.length_cons] at hlen
        omega
      simp only [send_to_members]
      rw [if_pos hsize]
      by_cases he : a ∈ excl
      · rw [if_pos he]
        have hrest := ih f now pet n0 excl m s hlen2 hsize
          (fun d hd hne => hreg d (List.mem_cons_of_mem _ hd) hne)
        simp [hrest, Effects.app, Effects.empty, he]
      · rw [if_neg he]
        obtain ⟨w, hw, hwf⟩ := hreg a (List.mem_cons_self a rest) he
        have hf1 : 0 < f := Nat.lt_of_le_of_lt (Nat.zero_le _) hlen2
        obtain ⟨f2, rfl⟩ : ∃ f2, f = f2 + 1 := ⟨f - 1, by omega⟩
        have hspm := spm_delivers f2 now a m s w hw hwf
        rw [hspm]
        have hrest := ih (f2+1) now pet n0 excl m s hlen2 hsize
          (fun d hd hne => hreg d (List.mem_cons_of_mem _ hd) hne)
        simp [hrest, Effects.app, he]

theorem rd_roomsNonempty (now : Int) (fuel : Nat) :
    ∀ (l : List String) (acc : Hub × Effects),
      roomsNonempty acc.1 → roomsNonempty (runDisconnects fuel now l acc).1 := by
  intro l
  induction l with
  | nil =>
    intro acc h
    simpa [runDisconnects] using h
  | cons a rest ih =>
    intro acc h
    simp only [runDisconnects]
    split
    · exact (roomsNonempty_kept fuel).2.1 now a acc.1 h
    · exact ih _ ((roomsNonempty_kept fuel).2.1 now a acc.1 h)

theorem join_roomsNonempty (fuel : Nat) (now : Int) (c p : String) (s : Hub)
    (hinv : roomsNonempty s) : roomsNonempty (join_pet_room fuel now c p s).1 := by
  unfold join_pet_room
  apply (roomsNonempty_kept fuel).2.2.2.1 now p (userJoinedMsg c p now) [c]
  intro q ms hq
  dsimp only at hq
  rw [dlookup_dset] at hq
  by_cases hqp : q = p
  · rw [if_pos hqp] at hq
    cases hq
    exact sadd_ne_nil c _
  · rw [if_neg hqp] at hq
    exact hinv q ms hq

theorem connect_roomsNonempty (fuel : Nat) (now : Int) (ws : WS) (c : String)
    (pet : Option String) (s : Hub) (hinv : roomsNonempty s) :
    roomsNonempty (connect fuel now ws c pet s).1 := by
  unfold connect
  cases pet with
  | none =>
    exact (roomsNonempty_kept fuel).1 now c (connectMsg c now) _
      (fun q ms hq => hinv q ms hq)
  | some p =>
    have hjoin := join_roomsNonempty fuel now c p
      ({ s with active_connections := dset c ws s.active_connections,
                last_heartbeat := dset c now s.last_heartbeat })
      (fun q ms hq => hinv q ms hq)
    dsimp only
    split
    · exact hjoin
    · exact (roomsNonempty_kept fuel).1 now c (connectMsg c now) _ hjoin

theorem hb_roomsNonempty (fuel : Nat) (now : Int) (c : String) (s : Hub)
    (hinv : roomsNonempty s) : roomsNonempty (handle_heartbeat fuel now c s).1 := by
  unfold handle_heartbeat
  cases h : dlookup c s.active_connections with
  | none => exact hinv
  | some ws =>
    exact (roomsNonempty_kept fuel).1 now c heartbeatAckMsg _
      (fun q ms hq => hinv q ms hq)

theorem broadcast_roomsNonempty (fuel : Nat) (now : Int) (m : Message) (excl : List String)
    (s : Hub) (hinv : roomsNonempty s) : roomsNonempty (broadcast fuel now m excl s).1 := by
  unfold broadcast
  exact rd_roomsNonempty now fuel _ _ (fun q ms hq => hinv q ms hq)

theorem sweep_roomsNonempty (fuel : Nat) (now : Int) (s : Hub)
    (hinv : roomsNonempty s) : roomsNonempty (heartbeat_sweep fuel now s).1 := by
  unfold heartbeat_sweep
  exact fun q ms hq =>
    rd_roomsNonempty now fuel (staleClients now s) (s, Effects.empty)
      (fun q2 ms2 hq2 => hinv q2 ms2 hq2) q ms hq

theorem applyOp_roomsNonempty (s : Hub) (op : HubOp) (hinv : roomsNonempty s) :
    roomsNonempty (applyOp s op) := by
  cases op with
  | opConnect now ws c p => exact connect_roomsNonempty opFuel now ws c p s hinv
  | opDisconnect now c => exact (roomsNonempty_kept opFuel).2.1 now c s hinv
  | opJoin now c p => exact join_roomsNonempty opFuel now c p s hinv
  | opLeave now c p => exact (roomsNonempty_kept opFuel).2.2.1 now c p s hinv
  | opHeartbeat now c => exact hb_roomsNonempty opFuel now c s hinv
  | opBroadcast now m e => exact broadcast_roomsNonempty opFuel now m e s hinv
  | opBroadcastRoom now p m e => exact (roomsNonempty_kept opFuel).2.2.2.1 now p m e s hinv
  | opSweep now => exact sweep_roomsNonempty opFuel now s hinv

theorem runOps_roomsNonempty :
    ∀ (ops : List HubOp) (s : Hub), roomsNonempty s → roomsNonempty (runOps ops s) := by
  intro ops
  induction ops with
  | nil => exact fun s h => h
  | cons op rest ih =>
    intro s h
    exact ih _ (applyOp_roomsNonempty s op h)

/-- C6: in every state reachable from the empty hub by hub operations, a
room id is present in the room index if and only if its membership set is
non-empty; the last leave deletes the room entry and no operation installs
or retains an empty room.  The room update and the empty-room deletion are
adjacent in the source with no await between them, so the invariant also
holds in the states left behind by an aborted (raising) cascade, which the
embedding covers through its err-carrying branches. -/
theorem C6_room_present_iff_nonempty (ops : List HubOp) (p : String) :
    (dlookup p (runOps ops Hub.init).pet_rooms).isSome = true ↔
      ¬(roomMembers (runOps ops Hub.init) p = []) := by
  have hinv : roomsNonempty (runOps ops Hub.init) := by
    apply runOps_roomsNonempty
    intro q ms hq
    simp [Hub.init, dlookup] at hq
  constructor
  · intro hs
    cases hq : dlookup p (runOps ops Hub.init).pet_rooms with
    | none =>
      rw [hq] at hs
      cases hs
    | some ms =>
      rw [roomMembers, hq]
      exact hinv p ms hq
  · intro hne
    cases hq : dlookup p (runOps ops Hub.init).pet_rooms with
    | none =>
      exfalso
      apply hne
      rw [roomMembers, hq]
      rfl
    | some ms => rfl

/-- C1: the claim fails on the code.  Starting from the empty hub, the
join/leave sequence join(c1, A); join(c1, B) leaves c1 a member of both
room A and room B, while the reverse index names only B: a client can
belong to two rooms at once and RoomOf is not consistent with MembersOf
(join_pet_room never removes the client from its previous room). -/
theorem C1_two_rooms_after_two_joins :
    "c1" ∈ roomMembers (runOps [HubOp.opJoin 0 "c1" "A", HubOp.opJoin 1 "c1" "B"] Hub.init) "A" ∧
    "c1" ∈ roomMembers (runOps [HubOp.opJoin 0 "c1" "A", HubOp.opJoin 1 "c1" "B"] Hub.init) "B" ∧
    dlookup "c1" (runOps [HubOp.opJoin 0 "c1" "A", HubOp.opJoin 1 "c1" "B"] Hub.init).user_pets
      = some "B" := by
  decide

/-- C2: the claim fails on the code.  With c1 and c2 in room A and c3 in
room B, c1 joining room B is not removed from A, no user_left notice is
emitted at all, and the user_joined notice goes to c3 only (that last
part matches the claim). -/
theorem C2_join_B_keeps_membership_in_A :
    "c1" ∈ roomMembers (join_pet_room 20 5 "c1" "B" demoHub).1 "A" ∧
    (join_pet_room 20 5 "c1" "B" demoHub).2.broadcasts.filter
      (fun m => decide (m.mtype = MessageType.user_left)) = [] ∧
    (join_pet_room 20 5 "c1" "B" demoHub).2.sent = [("c3", userJoinedMsg "c1" "B" 5)] := by
  decide

/-- C4: the claim fails on the code.  Registering a second connection for
the same client id overwrites the registry entry without closing the old
handle (no path of the hub ever closes a handle), so the first handle is
leaked rather than closed exactly once. -/
theorem C4_second_connect_closes_nothing :
    (connect 20 0 ⟨1, false⟩ "c" none Hub.init).2.closed = [] ∧
    dlookup "c" (connect 20 0 ⟨1, false⟩ "c" none Hub.init).1.active_connections
      = some ⟨1, false⟩ ∧
    (connect 20 1 ⟨2, false⟩ "c" none (connect 20 0 ⟨1, false⟩ "c" none Hub.init).1).2.closed
      = [] ∧
    dlookup "c"
        (connect 20 1 ⟨2, false⟩ "c" none
          (connect 20 0 ⟨1, false⟩ "c" none Hub.init).1).1.active_connections
      = some ⟨2, false⟩ := by
  decide

/-- C5 counterexample: leaving room B, of which c1 is not a member, is not
a no-op on the hub state: it deletes the reverse-index entry of c1 (which
pointed at room A). -/
theorem C5_counterexample_not_noop :
    ¬("c1" ∈ roomMembers demoHub "B") ∧
    ¬((leave_pet_room 20 5 "c1" "B" demoHub).1 = demoHub) := by
  decide

/-- C5 amended: leaving a room one is not a member of raises no error,
emits no notice, and leaves active_connections, pet_rooms and
last_heartbeat unchanged, but it always deletes the client's
reverse-index entry; it is a complete no-op exactly when the client has
no reverse-index entry.  (In the non-member case the source skips the
broadcast entirely, so no raising path exists there.) -/
theorem C5_leave_nonmember_amended (fuel : Nat) (now : Int) (c r : String) (s : Hub)
    (h : ¬(c ∈ roomMembers s r)) :
    leave_pet_room (fuel+1) now c r s =
      ({ s with user_pets := derase c s.user_pets }, Effects.empty) := by
  simp only [leave_pet_room]
  cases hr : dlookup r s.pet_rooms with
  | none => rfl
  | some members =>
    have hm : ¬(c ∈ members) := by
      intro hmem
      apply h
      rw [roomMembers, hr]
      exact hmem
    dsimp only
    rw [if_neg hm]
    rfl

theorem C5_witness :
    ¬("c1" ∈ roomMembers demoHub "B") ∧
    leave_pet_room 20 5 "c1" "B" demoHub =
      ({ demoHub with user_pets := derase "c1" demoHub.user_pets }, Effects.empty) :=
  ⟨by decide, C5_leave_nonmember_amended 19 5 "c1" "B" demoHub (by decide)⟩

/-- C10: for a client that is already registered and belongs to a room, a
second connect without a pet id replaces the stored handle, resets the
heartbeat timestamp, leaves pet_rooms and user_pets exactly as they were,
and emits only the connection confirmation to that client — no
user_joined or user_left notice (sent list is exactly the confirmation,
the broadcast ledger is empty, and no error is raised). -/
theorem C10_reconnect_preserves_rooms (fuel : Nat) (now : Int) (c : String) (ws : WS) (s : Hub)
    (w0 : WS) (r0 : String)
    (hreg : dlookup c s.active_connections = some w0)
    (hroom : dlookup c s.user_pets = some r0)
    (hok : ws.fails = false) :
    connect (fuel+1) now ws c none s =
      ({ s with active_connections := dset c ws s.active_connections,
                last_heartbeat := dset c now s.last_heartbeat },
       ⟨[(c, connectMsg c now)], [], [], false⟩) := by
  unfold connect
  have hlook : dlookup c ({ s with
      active_connections := dset c ws s.active_connections,
      last_heartbeat := dset c now s.last_heartbeat } : Hub).active_connections = some ws := by
    dsimp only
    rw [dlookup_dset, if_pos rfl]
  dsimp only
  rw [spm_delivers fuel now c (connectMsg c now) _ ws hlook hok]
  simp [Effects.app, Effects.empty]

theorem C10_witness :
    dlookup "c1" demoHub.active_connections = some ⟨1, false⟩ ∧
    dlookup "c1" demoHub.user_pets = some "A" ∧
    connect 20 7 ⟨9, false⟩ "c1" none demoHub =
      ({ demoHub with
          active_connections := dset "c1" ⟨9, false⟩ demoHub.active_connections,
          last_heartbeat := dset "c1" 7 demoHub.last_heartbeat },
       ⟨[("c1", connectMsg "c1" 7)], [], [], false⟩) :=
  ⟨by decide, by decide,
    C10_reconnect_preserves_rooms 19 7 "c1" ⟨9, false⟩ demoHub ⟨1, false⟩ "A"
      (by decide) (by decide) (by decide)⟩

/-- C8: broadcast_to_pet on room r with exclude list [c] delivers the
message to exactly the members of r other than c (given registered,
working handles for those members and enough fuel), and to no client
outside the room.  Under these hypotheses no send fails, so the live
membership set is never mutated during the loop and no size-mismatch
error can occur. -/
theorem C8_broadcast_room_exact (fuel : Nat) (now : Int) (r : String) (m : Message) (c : String)
    (s : Hub)
    (hfuel : (roomMembers s r).length < fuel)
    (hreg : ∀ d ∈ roomMembers s r, ¬(d = c) →
        ∃ w, dlookup d s.active_connections = some w ∧ w.fails = false) :
    (broadcast_to_pet (fuel+1) now r m [c] s).2.sent
        = ((roomMembers s r).filter (fun d => !(decide (d ∈ ([c] : List String))))).map
            (fun d => (d, m)) ∧
    (∀ d m2, (d, m2) ∈ (broadcast_to_pet (fuel+1) now r m [c] s).2.sent →
        d ∈ roomMembers s r ∧ ¬(d = c) ∧ m2 = m) ∧
    (∀ d, d ∈ roomMembers s r → ¬(d = c) →
        (d, m) ∈ (broadcast_to_pet (fuel+1) now r m [c] s).2.sent) := by
  have hsent : (broadcast_to_pet (fuel+1) now r m [c] s).2.sent
      = ((roomMembers s r).filter (fun d => !(decide (d ∈ ([c] : List String))))).map
          (fun d => (d, m)) := by
    simp only [broadcast_to_pet]
    cases hr : dlookup r s.pet_rooms with
    | none =>
      have h0 : roomMembers s r = [] := by
        rw [roomMembers, hr]
        rfl
      rw [h0]
      rfl
    | some members =>
      have hmem : roomMembers s r = members := by
        rw [roomMembers, hr]
        rfl
      rw [hmem] at hfuel hreg ⊢
      have hsz : (roomMembers s r).length = members.length := by rw [hmem]
      have hexact := stm_exact members fuel now r members.length [c] m s hfuel hsz
        (fun d hd hne => hreg d hd (by simpa using hne))
      dsimp only
      rw [hexact]
  refine ⟨hsent, ?_, ?_⟩
  · intro d m2 hdm
    rw [hsent] at hdm
    obtain ⟨d2, hd2, heq⟩ := List.mem_map.mp hdm
    obtain ⟨hmem, hfil⟩ := List.mem_filter.mp hd2
    injection heq with he1 he2
    subst he1
    refine ⟨hmem, ?_, he2.symm⟩
    simpa using hfil
  · intro d hdmem hdne
    rw [hsent]
    apply List.mem_map.mpr
    refine ⟨d, ?_, rfl⟩
    apply List.mem_filter.mpr
    exact ⟨hdmem, by simpa using hdne⟩

theorem C8_witness :
    (roomMembers demoHub "A").length < 19 ∧
    (∀ d ∈ roomMembers demoHub "A", ¬(d = "c1") →
        ∃ w, dlookup d demoHub.active_connections = some w ∧ w.fails = false) ∧
    (broadcast_to_pet 20 5 "A" demoMsg ["c1"] demoHub).2.sent
      = ((roomMembers demoHub "A").filter
          (fun d => !(decide (d ∈ (["c1"] : List String))))).map (fun d => (d, demoMsg)) := by
  have hreg : ∀ d ∈ roomMembers demoHub "A", ¬(d = "c1") →
      ∃ w, dlookup d demoHub.active_connections = some w ∧ w.fails = false := by
    intro d hd hne
    have hd2 : d = "c1" ∨ d = "c2" := by
      simpa [demoHub, roomMembers, dlookup] using hd
    rcases hd2 with h1 | h1
    · exact absurd h1 hne
    · subst h1
      exact ⟨⟨2, false⟩, by decide, rfl⟩
  have h := C8_broadcast_room_exact 19 5 "A" demoMsg "c1" demoHub (by decide) hreg
  exact ⟨by decide, hreg, h.1⟩

/-- C3 counterexample: disconnecting a registered client twice closes the
underlying handle zero times, not exactly once — no path of the hub ever
closes a handle. -/
theorem C3_counterexample_zero_closes :
    dlookup "c1" demoHub.active_connections = some ⟨1, false⟩ ∧
    ¬(((disconnect 20 5 "c1" demoHub).2.closed ++
        (disconnect 20 6 "c1" (disconnect 20 5 "c1" demoHub).1).2.closed).length = 1) := by
  decide

/-- C3 amended: when every registered handle delivers (so the teardown
notice broadcast cannot raise), disconnect is idempotent — the second of
two consecutive disconnect calls is a no-op on the hub state and emits
nothing — at most one user_left notice about the client is emitted in
total, no error escapes either call, and no handle is ever closed (the
hub closes zero handles, not exactly one).  Without that proviso the
source can raise mid-teardown — the user_left loop iterates the live
room set, which a co-member's send-failure cascade mutates — aborting
the first call before it deregisters the client, so the second call then
completes the removal instead of being a no-op. -/
theorem C3_disconnect_idempotent_amended (fuel : Nat) (now1 now2 : Int) (c : String) (s : Hub)
    (hgood : goodHandles s) :
    disconnect (fuel+1) now2 c (disconnect (fuel+1) now1 c s).1
        = ((disconnect (fuel+1) now1 c s).1, Effects.empty) ∧
    (disconnect (fuel+1) now1 c s).2.closed = [] ∧
    (disconnect (fuel+1) now2 c (disconnect (fuel+1) now1 c s).1).2.closed = [] ∧
    ((disconnect (fuel+1) now1 c s).2.broadcasts.filter (isULC c)).length ≤ 1 ∧
    (disconnect (fuel+1) now1 c s).2.err = false := by
  obtain ⟨ha, hb, he⟩ := dc_good fuel now1 c s hgood
  have hsecond := disconnect_not_active fuel now2 c _ ha
  refine ⟨hsecond, (closed_nil (fuel+1)).2.1 now1 c s, ?_, hb, he⟩
  rw [hsecond]
  rfl

theorem C3_witness :
    goodHandles demoHub ∧
    disconnect 20 6 "c1" (disconnect 20 5 "c1" demoHub).1
      = ((disconnect 20 5 "c1" demoHub).1, Effects.empty) ∧
    (disconnect 20 5 "c1" demoHub).2.closed = [] ∧
    (disconnect 20 6 "c1" (disconnect 20 5 "c1" demoHub).1).2.closed = [] ∧
    ((disconnect 20 5 "c1" demoHub).2.broadcasts.filter (isULC "c1")).length ≤ 1 ∧
    (disconnect 20 5 "c1" demoHub).2.err = false := by
  have h := C3_disconnect_idempotent_amended 19 5 6 "c1" demoHub
    (by unfold goodHandles; decide)
  exact ⟨by unfold goodHandles; decide, h.1, h.2.1, h.2.2.1, h.2.2.2.1, h.2.2.2.2⟩

/-- C7: the claim fails on the code.  In demoTwoBad the clients d1 and d2
share room A and both their handles raise on send.  broadcast delivers
the payload to the working client c1 in its main loop, but the deferred
cleanup then runs disconnect(d1), whose user_left broadcast iterates
room A's live set; d2's send fails there, d2's nested disconnect removes
d2 from that very set, and the loop's next step raises (err).  The error
propagates uncaught to the broadcaster and aborts disconnect(d1) before
its registry deletion, so the failing peer d1 stays registered with its
stale reverse-index entry, while d2 was fully removed. -/
theorem C7_broadcast_error_reaches_caller :
    ("c1", demoMsg) ∈ (broadcast 20 5 demoMsg [] demoTwoBad).2.sent ∧
    (broadcast 20 5 demoMsg [] demoTwoBad).2.err = true ∧
    dlookup "d1" (broadcast 20 5 demoMsg [] demoTwoBad).1.active_connections
      = some ⟨4, true⟩ ∧
    dlookup "d1" (broadcast 20 5 demoMsg [] demoTwoBad).1.user_pets = some "A" ∧
    dlookup "d2" (broadcast 20 5 demoMsg [] demoTwoBad).1.active_connections = none := by
  decide

/-- C9: the claim fails on the code.  In demoSweepBad the client c1 is
stale at sweep time 100 (heartbeat 10, 90 units old) and shares room A
with the fresh client d whose handle raises.  The sweep's disconnect(c1)
broadcasts c1's user_left over room A's live set; d's send fails, d's
nested disconnect removes d from that set, and the loop's next step
raises.  The checker's per-sweep try/except catches the error (err comes
out false) but disconnect(c1) was aborted before its registry deletion,
so the stale client survives the sweep that the claim says evicts it. -/
theorem C9_sweep_aborts_before_evicting_stale :
    dlookup "c1" demoSweepBad.last_heartbeat = some 10 ∧
    (60 : Int) < 100 - 10 ∧
    dlookup "c1" (heartbeat_sweep 20 100 demoSweepBad).1.active_connections
      = some ⟨1, false⟩ ∧
    dlookup "c1" (heartbeat_sweep 20 100 demoSweepBad).1.last_heartbeat = some 10 ∧
    (heartbeat_sweep 20 100 demoSweepBad).2.err = false := by
  decide
